import Mathlib

/-!
# Verification of the quiz-app scoring core

A shallow embedding of the scoring engine of the `quiz-app` repository
(`quiz_api/scoring_strategies.py`, `quiz_api/services.py`, `quiz_api/models.py`)
together with proofs settling the specification claims about it.

Numeric conventions of the embedding:

* Python machine integers are unbounded, so they are embedded as `Int`/`Nat`
  directly.
* `decimal.Decimal` values are exact decimal fractions; they are embedded as
  rationals (`ℚ`).  `Decimal.quantize(Decimal("0.01"))` with the default
  context rounding (`ROUND_HALF_EVEN`) is embedded as `quantize2`.
* Python `float` is an IEEE-754 binary64 value; every binary64 value is a
  rational number, so float results are embedded as the exact rationals they
  denote.  A Python float operation produces the correctly rounded
  (round-to-nearest, ties-to-even, 53-bit significand) value of the exact
  result; this rounding step is embedded as `roundDouble` (the exponent range
  is unbounded in the model, which agrees with binary64 on all
  non-overflowing, non-subnormal magnitudes such as the ones arising here).
-/

/-- Round a rational to the nearest integer, ties to even
(the rounding used both by IEEE-754 binary64 arithmetic for the significand
and by `decimal`'s default `ROUND_HALF_EVEN` context). -/
def rne (q : ℚ) : ℤ :=
  if q - ⌊q⌋ < 1/2 then ⌊q⌋
  else if 1/2 < q - ⌊q⌋ then ⌊q⌋ + 1
  else if ⌊q⌋ % 2 = 0 then ⌊q⌋ else ⌊q⌋ + 1

/-- Fuelled floor-of-log2 on naturals (structural recursion). -/
def natLog2F : ℕ → ℕ → ℕ
  | 0, _ => 0
  | fuel + 1, n => if 2 ≤ n then natLog2F fuel (n / 2) + 1 else 0

/-- The function `natLog2 n` is the floor of the base-2 logarithm of `n`, for `n ≥ 1`. -/
def natLog2 (n : ℕ) : ℕ := natLog2F n n

/-- The floor of the base-2 logarithm of a positive rational `q`, computed by
scaling `q` into the integers first. -/
def qFloorLog2 (q : ℚ) : ℤ :=
  (natLog2 (⌊q * 2 ^ (natLog2 q.den + 1)⌋).toNat : ℤ) - (natLog2 q.den + 1)

/-- Round a positive rational to 53 significant binary digits
(round-to-nearest, ties-to-even). -/
def roundDoubleAux (q : ℚ) : ℚ :=
  (rne (q / 2 ^ (qFloorLog2 q - 52)) : ℚ) * 2 ^ (qFloorLog2 q - 52)

/-- The IEEE-754 binary64 rounding of an exact rational result: this is what
each Python `float` arithmetic operation applies to the exact value of the
operation. -/
def roundDouble (q : ℚ) : ℚ :=
  if q = 0 then 0
  else if q < 0 then -roundDoubleAux (-q) else roundDoubleAux q

/-- Embedding of `Decimal(x).quantize(Decimal("0.01"))` under the default decimal context:
round to a multiple of `1/100`, ties to even. -/
def quantize2 (x : ℚ) : ℚ := (rne (x * 100) : ℚ) / 100

namespace QuizScoringService

/-- Embedding of `QuizScoringService._calculate_percentage` from
`quiz_api/services.py`:

```python
if total == 0:
    return Decimal('0.00')
return Decimal((earned / total) * 100).quantize(Decimal('0.01'))
```

`earned / total` is Python float (binary64) true division and `* 100` is a
float multiplication, hence the two `roundDouble` steps; `Decimal(float)` is
exact; `.quantize` uses the context default `ROUND_HALF_EVEN`. -/
def calculate_percentage (earned total : ℤ) : ℚ :=
  if total = 0 then 0
  else quantize2 (roundDouble (roundDouble ((earned : ℚ) / (total : ℚ)) * 100))

end QuizScoringService

/-- Round a rational to 2 decimal places with round-half-up.
This follows the specification's words, not the source. -/
def roundHalfUp2 (x : ℚ) : ℚ := (⌊x * 100 + 1/2⌋ : ℚ) / 100

/-- The percentage computation exactly as the specification describes it:
`earned_points / total_points * 100`, rounded to 2 decimal places using
round-half-up exact decimal arithmetic (no binary floating-point step), with
`0.00` for `total_points = 0`.
This follows the specification's words, not the source. -/
def percentage_spec (earned total : ℤ) : ℚ :=
  if total = 0 then 0
  else roundHalfUp2 ((earned : ℚ) / (total : ℚ) * 100)

/-- The percentage computation as the amended claim C1 describes it: the
quotient `earned / total` is computed in binary64 floating point, multiplied
by `100` in binary64, and the result is rounded to 2 decimal places with
round-half-even (banker's) rounding; `0.00` for `total_points = 0`. -/
def percentage_amended (earned total : ℤ) : ℚ :=
  if total = 0 then 0
  else quantize2 (roundDouble (100 * roundDouble ((earned : ℚ) / (total : ℚ))))

/-! ## Data model (from `quiz_api/models.py`)

Django model rows are embedded as structures carrying the fields the scoring
core reads.  Database ids are integers; `is_correct` is the answer's
correctness flag. -/

/-- Embedding of the `Answer` model: a candidate option of a question. -/
structure Answer where
  id : ℤ
  text : String
  is_correct : Bool
  explanation : String
  order : ℤ
  deriving DecidableEq

/-- Embedding of the `Question` model together with its owned answers
(`question.answers`).  `points` is an `IntegerField` (validators restrict it
to 1..100 on validated data), `question_type` is the type tag string. -/
structure Question where
  id : ℤ
  question_type : String
  text : String
  points : ℤ
  order : ℤ
  answers : List Answer
  deriving DecidableEq

/-- Embedding of the `Quiz` model together with its owned questions
(`quiz.questions`). -/
structure Quiz where
  id : ℤ
  title : String
  questions : List Question
  deriving DecidableEq

/-- Embedding of the `UserQuizAttempt` model: the persisted outcome of one
scoring run.  `score` is a `DecimalField` with 2 decimal places. -/
structure UserQuizAttempt where
  id : ℤ
  user_id : ℤ
  quiz_id : ℤ
  score : ℚ
  completed_at : ℤ
  deriving DecidableEq

/-! ## Scoring strategies (from `quiz_api/scoring_strategies.py`) -/

/-- An evaluator (a `QuestionScoringStrategy` subclass) is determined by its
`is_correct(question, submitted_answer_ids)` method. -/
abbrev Strategy := Question → List ℤ → Bool

/-- Embedding of the strategies' shared subexpression
`set(question.answers.filter(is_correct=True).values_list('id', flat=True))`:
the set of ids of the answers marked correct. -/
def correct_answer_ids (q : Question) : Finset ℤ :=
  ((q.answers.filter fun a => a.is_correct).map fun a => a.id).toFinset

/-- Embedding of `SingleChoiceStrategy.is_correct`: exactly one distinct id
submitted, exactly one distinct correct id, and the two sets coincide. -/
def SingleChoiceStrategy : Strategy := fun q ids =>
  decide (ids.toFinset.card = 1 ∧ (correct_answer_ids q).card = 1 ∧
    ids.toFinset = correct_answer_ids q)

/-- Embedding of `MultipleChoiceStrategy.is_correct`: the set of submitted
ids equals the set of correct ids. -/
def MultipleChoiceStrategy : Strategy := fun q ids =>
  decide (ids.toFinset = correct_answer_ids q)

/-- Embedding of `SelectWordsStrategy.is_correct`: same rule as
multiple-choice (set equality), kept as a distinct definition because the
source has a distinct class. -/
def SelectWordsStrategy : Strategy := fun q ids =>
  decide (ids.toFinset = correct_answer_ids q)

/-- A Python `dict` keyed by strings, in insertion order with unique keys
(the shape of `ScoringStrategyFactory._strategies`). -/
abbrev Registry := List (String × Strategy)

/-- Python `d.get(k)`: the value stored at key `k`, if any. -/
def dictGet : Registry → String → Option Strategy
  | [], _ => none
  | (k', v) :: tl, k => if k' == k then some v else dictGet tl k

/-- Python `d[k] = v`: overwrite the value at key `k` in place, or append the new
entry at the end (Python dict update semantics for unique-key lists). -/
def dictSet : Registry → String → Strategy → Registry
  | [], k, v => [(k, v)]
  | (k', v') :: tl, k, v =>
    if k' == k then (k, v) :: tl else (k', v') :: dictSet tl k v

/-- A single-quote character, used by the factory's error message. -/
def squote : String := String.singleton (Char.ofNat 39)

namespace ScoringStrategyFactory

/-- The initial `_strategies` registry of `ScoringStrategyFactory`. -/
def strategies : Registry :=
  [("single", SingleChoiceStrategy),
   ("multi", MultipleChoiceStrategy),
   ("select_words", SelectWordsStrategy)]

/-- The message of the `ValueError` raised by `get_strategy` for an unknown
type tag: it names the offending tag and joins the known tags with `", "`. -/
def strategyErrorMsg (d : Registry) (t : String) : String :=
  "Unknown question type " ++ squote ++ t ++ squote ++
    ". Supported types: " ++ String.intercalate ", " (d.map Prod.fst)

/-- Embedding of `ScoringStrategyFactory.get_strategy`: look the tag up in
the registry, raising `ValueError` (modelled by `Except.error`) with the
message above when the tag has no entry. -/
def get_strategy (d : Registry) (t : String) : Except String Strategy :=
  match dictGet d t with
  | some s => Except.ok s
  | none => Except.error (strategyErrorMsg d t)

/-- Embedding of `ScoringStrategyFactory.register_strategy`: store the
evaluator under the tag (the source's `TypeError` guard for non-subclasses
cannot fire in the embedding because `Strategy` only contains evaluators). -/
def register_strategy (d : Registry) (t : String) (s : Strategy) : Registry :=
  dictSet d t s

end ScoringStrategyFactory

/-! ## Scoring service (from `quiz_api/services.py`) -/

/-- A submission payload: a JSON object mapping question-id strings to lists
of submitted answer ids (`Dict[str, List[int]]`). -/
abbrev Submission := List (String × List ℤ)

/-- Python `submitted_answers.get(key, [])`: the list stored under `key`, or the
empty list when the key is absent. -/
def subGet : Submission → String → List ℤ
  | [], _ => []
  | (k', v) :: tl, k => if k' == k then v else subGet tl k

namespace QuizScoringService

/-- Embedding of `QuizScoringService._is_answer_correct`: dispatch on the
question's type tag through the factory; a `ValueError` from the factory is
caught, logged, and turned into `False`. -/
def is_answer_correct (d : Registry) (q : Question) (ids : List ℤ) : Bool :=
  match ScoringStrategyFactory.get_strategy d q.question_type with
  | Except.ok s => s q ids
  | Except.error _ => false

/-- Embedding of the scoring loop of `QuizScoringService.calculate_score`:
for each question of the quiz, add its points to `total_points`, look up the
submitted ids under `str(question.id)`, and add the points to
`earned_points` when the evaluator judges them correct.  Returns
`(score_percentage, total_points, earned_points)`; the computation never
raises (the detailed-results list is not modelled: no claim mentions it). -/
def calculate_score (d : Registry) (quiz : Quiz) (sub : Submission) :
    ℚ × ℤ × ℤ :=
  let r := quiz.questions.foldl
    (fun acc q =>
      (acc.1 + q.points,
       acc.2 + (if is_answer_correct d q (subGet sub (toString q.id))
                then q.points else 0)))
    ((0:ℤ), (0:ℤ))
  (calculate_percentage r.2 r.1, r.1, r.2)

end QuizScoringService

namespace QuizAttemptService

/-- Embedding of `QuizAttemptService.create_attempt`: a new attempt row is
created storing the supplied score unchanged (identifier and timestamp are
assigned by the database and appear as parameters). -/
def create_attempt (aid user_id quiz_id : ℤ) (score : ℚ)
    (completed_at : ℤ) : UserQuizAttempt :=
  ⟨aid, user_id, quiz_id, score, completed_at⟩

/-- Embedding of `QuizAttemptService.get_recent_attempts` with the default
`limit=5`, applied to the user's attempts as returned by
`get_user_attempts` (newest first, per the model's `-completed_at`
ordering): the first five entries. -/
def get_recent_attempts (attempts : List UserQuizAttempt) :
    List UserQuizAttempt :=
  attempts.take 5

end QuizAttemptService

/-- The SQL `Max` aggregate over a list of scores, with the service's
`or 0` default for an empty (or all-zero, where `or` also yields `0`)
aggregate. -/
def maxScore : List ℚ → ℚ
  | [] => 0
  | s :: tl => tl.foldl max s

namespace UserStatsService

/-- The dictionary returned by `UserStatsService.get_statistics`. -/
structure Stats where
  total_quizzes : ℕ
  average_score : ℚ
  highest_score : ℚ
  recent_attempts : List UserQuizAttempt

/-- Embedding of `UserStatsService.get_statistics`, applied to the user's
attempt list (newest first, per the model ordering): count, the `Avg`
aggregate defaulted to 0 and rounded to 2 places (`round(. or 0, 2)`, which
is a half-even quantize on `Decimal`), the `Max` aggregate defaulted to 0,
and the first five attempts. -/
def get_statistics (attempts : List UserQuizAttempt) : Stats :=
  { total_quizzes := attempts.length
    average_score := quantize2
      (if attempts.length = 0 then 0
       else (attempts.map fun a => a.score).sum / (attempts.length : ℚ))
    highest_score := maxScore (attempts.map fun a => a.score)
    recent_attempts := QuizAttemptService.get_recent_attempts attempts }

end UserStatsService

/-- A value is an exact 2-decimal-place decimal (a whole number of
hundredths). -/
def IsCent (x : ℚ) : Prop := ∃ n : ℤ, x = (n : ℚ) / 100

/-- Membership of at least one answer marked correct. -/
def HasCorrectAnswer (q : Question) : Prop :=
  ∃ a ∈ q.answers, a.is_correct = true

/-! ## Lemmas about the numeric core -/

theorem natLog2F_spec :
    ∀ (f n : ℕ), 1 ≤ n → n ≤ f →
      2 ^ natLog2F f n ≤ n ∧ n < 2 ^ (natLog2F f n + 1) := by
  intro f
  induction f with
  | zero => intro n h1 h2; omega
  | succ f ih =>
    intro n h1 h2
    simp only [natLog2F]
    by_cases h : 2 ≤ n
    · rw [if_pos h]
      have hm1 : 1 ≤ n / 2 := by omega
      have hm2 : n / 2 ≤ f := by omega
      obtain ⟨l1, l2⟩ := ih (n / 2) hm1 hm2
      have hp1 : (2:ℕ) ^ (natLog2F f (n / 2) + 1) = 2 ^ natLog2F f (n / 2) * 2 :=
        pow_succ 2 _
      have hp2 : (2:ℕ) ^ (natLog2F f (n / 2) + 1 + 1) =
          2 ^ (natLog2F f (n / 2) + 1) * 2 := pow_succ 2 _
      omega
    · rw [if_neg h]
      simp only [pow_zero, pow_one]
      omega

theorem natLog2_spec (n : ℕ) (h : 1 ≤ n) :
    2 ^ natLog2 n ≤ n ∧ n < 2 ^ (natLog2 n + 1) :=
  natLog2F_spec n n h le_rfl

theorem natLog2_eq_of (n L : ℕ) (h1 : 2 ^ L ≤ n) (h2 : n < 2 ^ (L + 1)) :
    natLog2 n = L := by
  have hn : 1 ≤ n := le_trans (Nat.one_le_two_pow) h1
  obtain ⟨s1, s2⟩ := natLog2_spec n hn
  rcases Nat.lt_trichotomy (natLog2 n) L with hlt | heq | hgt
  · have : (2:ℕ) ^ (natLog2 n + 1) ≤ 2 ^ L := Nat.pow_le_pow_right (by norm_num) (by omega)
    omega
  · exact heq
  · have : (2:ℕ) ^ (L + 1) ≤ 2 ^ natLog2 n := Nat.pow_le_pow_right (by norm_num) (by omega)
    omega

theorem rne_le (q : ℚ) : (rne q : ℚ) ≤ q + 1/2 := by
  have hf1 : (⌊q⌋ : ℚ) ≤ q := Int.floor_le q
  unfold rne
  split_ifs with h1 h2 h3
  · linarith
  · push_cast
    linarith
  · linarith
  · push_cast
    linarith

theorem rne_ge (q : ℚ) : q - 1/2 ≤ (rne q : ℚ) := by
  have hf2 : q < ⌊q⌋ + 1 := Int.lt_floor_add_one q
  unfold rne
  split_ifs with h1 h2 h3
  · linarith
  · push_cast
    linarith
  · linarith
  · push_cast
    linarith

theorem rne_nonneg (q : ℚ) (h : 0 ≤ q) : 0 ≤ rne q := by
  by_contra hneg
  push_neg at hneg
  have h1 : rne q ≤ -1 := by omega
  have h2 : (rne q : ℚ) ≤ -1 := by exact_mod_cast h1
  have := rne_ge q
  linarith

theorem rne_intCast (n : ℤ) : rne (n : ℚ) = n := by
  unfold rne
  rw [Int.floor_intCast]
  rw [if_pos (by norm_num)]

theorem rne_eq_down (q : ℚ) (n : ℤ) (h1 : (n:ℚ) ≤ q) (h2 : q < (n:ℚ) + 1/2) :
    rne q = n := by
  have hf : ⌊q⌋ = n := Int.floor_eq_iff.2 ⟨h1, by linarith⟩
  unfold rne
  rw [hf, if_pos (by linarith)]

theorem rne_eq_up (q : ℚ) (n : ℤ) (h1 : (n:ℚ) + 1/2 < q) (h2 : q < (n:ℚ) + 1) :
    rne q = n + 1 := by
  have hf : ⌊q⌋ = n := Int.floor_eq_iff.2 ⟨by linarith, by linarith⟩
  unfold rne
  rw [hf, if_neg (by linarith), if_pos (by linarith)]

theorem rne_eq_tie (q : ℚ) (n : ℤ) (h : q = (n:ℚ) + 1/2) :
    rne q = if n % 2 = 0 then n else n + 1 := by
  have hf : ⌊q⌋ = n := Int.floor_eq_iff.2 ⟨by linarith, by linarith⟩
  unfold rne
  rw [hf, if_neg (by rw [h]; linarith), if_neg (by rw [h]; linarith)]

theorem qFloorLog2_spec (q : ℚ) (hq : 0 < q) :
    (2:ℚ) ^ qFloorLog2 q ≤ q ∧ q < 2 ^ (qFloorLog2 q + 1) := by
  have hd : 1 ≤ q.den := q.den_pos
  have hden : q.den < 2 ^ (natLog2 q.den + 1) := (natLog2_spec q.den hd).2
  have hnum : 1 ≤ q.num := Rat.num_pos.2 hq
  have hdenQ : (0:ℚ) < (q.den : ℚ) := by exact_mod_cast q.den_pos
  have hqden : (q.num : ℚ) = q * (q.den : ℚ) :=
    (div_eq_iff (ne_of_gt hdenQ)).1 (Rat.num_div_den q)
  have hscale : (1:ℚ) ≤ q * 2 ^ (natLog2 q.den + 1) := by
    have h1 : (q.den : ℚ) < 2 ^ (natLog2 q.den + 1) := by exact_mod_cast hden
    have h2 : (1:ℚ) ≤ (q.num : ℚ) := by exact_mod_cast hnum
    have hp : (0:ℚ) < 2 ^ (natLog2 q.den + 1) := by positivity
    have h3 : q * 2 ^ (natLog2 q.den + 1) * (q.den : ℚ) =
        (q.num : ℚ) * 2 ^ (natLog2 q.den + 1) := by rw [hqden]; ring
    have h4 : (2:ℚ) ^ (natLog2 q.den + 1) ≤ (q.num : ℚ) * 2 ^ (natLog2 q.den + 1) :=
      le_mul_of_one_le_left (le_of_lt hp) h2
    have h5 : (1:ℚ) * (q.den : ℚ) < (q * 2 ^ (natLog2 q.den + 1)) * (q.den : ℚ) := by
      rw [one_mul, h3]; linarith
    exact le_of_lt ((mul_lt_mul_right hdenQ).1 h5)
  have hN1 : 1 ≤ ⌊q * 2 ^ (natLog2 q.den + 1)⌋ := Int.le_floor.2 (by exact_mod_cast hscale)
  set T := natLog2 q.den + 1 with hT
  set N := ⌊q * 2 ^ T⌋ with hN
  have hm : ((N.toNat : ℤ)) = N := Int.toNat_of_nonneg (by omega)
  have hm1 : 1 ≤ N.toNat := by omega
  obtain ⟨s1, s2⟩ := natLog2_spec N.toNat hm1
  set L := natLog2 N.toNat with hL
  have hfl : qFloorLog2 q = (L : ℤ) - T := rfl
  have hTpos : (0:ℚ) < 2 ^ T := by positivity
  have hfloor_le : (N : ℚ) ≤ q * 2 ^ T := Int.floor_le _
  have hfloor_lt : q * 2 ^ T < (N : ℚ) + 1 := Int.lt_floor_add_one _
  have hcast1 : ((2:ℚ)) ^ (L:ℤ) = ((2 ^ L : ℕ) : ℚ) := by push_cast; rw [zpow_natCast]
  have hcast2 : ((2:ℚ)) ^ ((L:ℤ) + 1) = ((2 ^ (L + 1) : ℕ) : ℚ) := by
    push_cast
    rw [← zpow_natCast (2:ℚ) (L + 1)]
    push_cast
    ring_nf
  have hcastT : ((2:ℚ)) ^ (T:ℤ) = 2 ^ T := by rw [zpow_natCast]
  constructor
  · rw [hfl, sub_eq_add_neg, zpow_add₀ (by norm_num : (2:ℚ) ≠ 0), zpow_neg, hcastT]
    rw [mul_inv_le_iff₀ hTpos]
    calc (2:ℚ) ^ (L:ℤ) = ((2 ^ L : ℕ) : ℚ) := hcast1
      _ ≤ ((N.toNat : ℚ)) := by exact_mod_cast s1
      _ = (N : ℚ) := by exact_mod_cast hm
      _ ≤ q * 2 ^ T := hfloor_le
  · rw [hfl]
    have : (L:ℤ) - T + 1 = ((L:ℤ) + 1) - T := by ring
    rw [this, sub_eq_add_neg, zpow_add₀ (by norm_num : (2:ℚ) ≠ 0), zpow_neg, hcastT]
    rw [lt_mul_inv_iff₀ hTpos]
    calc q * 2 ^ T < (N : ℚ) + 1 := hfloor_lt
      _ = ((N.toNat : ℚ)) + 1 := by
          have : ((N.toNat : ℚ)) = (N : ℚ) := by exact_mod_cast hm
          rw [this]
      _ ≤ ((2 ^ (L + 1) : ℕ) : ℚ) := by exact_mod_cast s2
      _ = (2:ℚ) ^ ((L:ℤ) + 1) := hcast2.symm

theorem qFloorLog2_eq_of (q : ℚ) (e : ℤ) (h0 : 0 < q)
    (h1 : (2:ℚ) ^ e ≤ q) (h2 : q < 2 ^ (e + 1)) : qFloorLog2 q = e := by
  obtain ⟨s1, s2⟩ := qFloorLog2_spec q h0
  rcases lt_trichotomy (qFloorLog2 q) e with hlt | heq | hgt
  · have hmono : (2:ℚ) ^ (qFloorLog2 q + 1) ≤ 2 ^ e :=
      zpow_le_zpow_right₀ (by norm_num) (by omega)
    linarith
  · exact heq
  · have hmono : (2:ℚ) ^ (e + 1) ≤ 2 ^ qFloorLog2 q :=
      zpow_le_zpow_right₀ (by norm_num) (by omega)
    linarith

theorem roundDoubleAux_nonneg (q : ℚ) (hq : 0 < q) : 0 ≤ roundDoubleAux q := by
  have hpow : (0:ℚ) < 2 ^ (qFloorLog2 q - 52) := by positivity
  have hx : 0 ≤ q / 2 ^ (qFloorLog2 q - 52) := le_of_lt (div_pos hq hpow)
  have h1 : 0 ≤ rne (q / 2 ^ (qFloorLog2 q - 52)) := rne_nonneg _ hx
  unfold roundDoubleAux
  have h2 : (0:ℚ) ≤ (rne (q / 2 ^ (qFloorLog2 q - 52)) : ℚ) := by exact_mod_cast h1
  exact mul_nonneg h2 (le_of_lt hpow)

theorem roundDoubleAux_le (q : ℚ) (hq : 0 < q) :
    roundDoubleAux q ≤ q * (1 + 2 ^ (-53 : ℤ)) := by
  set e : ℤ := qFloorLog2 q - 52 with he
  have hpow : (0:ℚ) < 2 ^ e := by positivity
  have h1 := rne_le (q / 2 ^ e)
  have step1 : roundDoubleAux q ≤ (q / 2 ^ e + 1/2) * 2 ^ e := by
    unfold roundDoubleAux
    rw [← he]
    exact mul_le_mul_of_nonneg_right h1 (le_of_lt hpow)
  have step2 : (q / 2 ^ e + 1/2) * 2 ^ e = q + 2 ^ e / 2 := by
    field_simp
    ring
  have step3 : (2:ℚ) ^ e / 2 = 2 ^ (qFloorLog2 q - 53) := by
    rw [he]
    rw [show qFloorLog2 q - 53 = (qFloorLog2 q - 52) - 1 by ring]
    rw [zpow_sub₀ (by norm_num : (2:ℚ) ≠ 0) (qFloorLog2 q - 52) 1, zpow_one]
  have step4 : (2:ℚ) ^ (qFloorLog2 q - 53) ≤ q * 2 ^ (-53 : ℤ) := by
    have hfl : (2:ℚ) ^ qFloorLog2 q ≤ q := (qFloorLog2_spec q hq).1
    have hsplit : (2:ℚ) ^ (qFloorLog2 q - 53) = 2 ^ qFloorLog2 q * 2 ^ (-53 : ℤ) := by
      rw [← zpow_add₀ (by norm_num : (2:ℚ) ≠ 0), sub_eq_add_neg]
    rw [hsplit]
    have hu : (0:ℚ) < 2 ^ (-53 : ℤ) := by positivity
    exact mul_le_mul_of_nonneg_right hfl (le_of_lt hu)
  calc roundDoubleAux q ≤ q + 2 ^ e / 2 := by rw [← step2]; exact step1
    _ ≤ q + q * 2 ^ (-53 : ℤ) := by rw [step3]; linarith
    _ = q * (1 + 2 ^ (-53 : ℤ)) := by ring

theorem roundDouble_nonneg (q : ℚ) (h : 0 ≤ q) : 0 ≤ roundDouble q := by
  unfold roundDouble
  rcases eq_or_lt_of_le h with heq | hlt
  · rw [if_pos heq.symm]
  · rw [if_neg (by linarith), if_neg (by linarith)]
    exact roundDoubleAux_nonneg q hlt

theorem roundDouble_le (q : ℚ) (h : 0 ≤ q) :
    roundDouble q ≤ q * (1 + 2 ^ (-53 : ℤ)) := by
  unfold roundDouble
  rcases eq_or_lt_of_le h with heq | hlt
  · rw [if_pos heq.symm, ← heq]
    norm_num
  · rw [if_neg (by linarith), if_neg (by linarith)]
    exact roundDoubleAux_le q hlt

theorem quantize2_nonneg (x : ℚ) (h : 0 ≤ x) : 0 ≤ quantize2 x := by
  unfold quantize2
  have h1 : 0 ≤ rne (x * 100) := rne_nonneg _ (by linarith)
  have h2 : (0:ℚ) ≤ (rne (x * 100) : ℚ) := by exact_mod_cast h1
  linarith

theorem quantize2_le_100 (x : ℚ) (h : x ≤ 100 * (1 + 2 ^ (-53 : ℤ)) ^ 2) :
    quantize2 x ≤ 100 := by
  have hpow : (2:ℚ) ^ (-53 : ℤ) = 1/9007199254740992 := by norm_num
  rw [hpow] at h
  norm_num at h
  have h1 := rne_le (x * 100)
  have h2 : (rne (x * 100) : ℚ) < 10001 := by linarith
  have h3 : rne (x * 100) < 10001 := by exact_mod_cast h2
  have h4 : rne (x * 100) ≤ 10000 := by omega
  have h5 : (rne (x * 100) : ℚ) ≤ 10000 := by exact_mod_cast h4
  unfold quantize2
  linarith

theorem calculate_percentage_bounds (e t : ℤ) (h0 : 0 ≤ e) (h1 : e ≤ t) :
    0 ≤ QuizScoringService.calculate_percentage e t ∧
      QuizScoringService.calculate_percentage e t ≤ 100 := by
  unfold QuizScoringService.calculate_percentage
  by_cases ht : t = 0
  · rw [if_pos ht]
    norm_num
  · rw [if_neg ht]
    have htpos : 0 < t := by omega
    have htQ : (0:ℚ) < (t:ℚ) := by exact_mod_cast htpos
    have heQ : (0:ℚ) ≤ (e:ℚ) := by exact_mod_cast h0
    have hq0 : 0 ≤ (e:ℚ) / (t:ℚ) := div_nonneg heQ (le_of_lt htQ)
    have hq1 : (e:ℚ) / (t:ℚ) ≤ 1 := (div_le_one htQ).2 (by exact_mod_cast h1)
    have hu : (0:ℚ) < 2 ^ (-53 : ℤ) := by positivity
    have hd0 : 0 ≤ roundDouble ((e:ℚ) / (t:ℚ)) := roundDouble_nonneg _ hq0
    have hdle : roundDouble ((e:ℚ) / (t:ℚ)) ≤ 1 + 2 ^ (-53 : ℤ) := by
      have := roundDouble_le ((e:ℚ) / (t:ℚ)) hq0
      nlinarith
    have hy0 : 0 ≤ roundDouble ((e:ℚ) / (t:ℚ)) * 100 := by linarith
    have hx0 : 0 ≤ roundDouble (roundDouble ((e:ℚ) / (t:ℚ)) * 100) :=
      roundDouble_nonneg _ hy0
    have hxle : roundDouble (roundDouble ((e:ℚ) / (t:ℚ)) * 100) ≤
        100 * (1 + 2 ^ (-53 : ℤ)) ^ 2 := by
      have := roundDouble_le (roundDouble ((e:ℚ) / (t:ℚ)) * 100) hy0
      nlinarith
    exact ⟨quantize2_nonneg _ hx0, quantize2_le_100 _ hxle⟩

theorem calculate_percentage_eq_amended (e t : ℤ) :
    QuizScoringService.calculate_percentage e t = percentage_amended e t := by
  unfold QuizScoringService.calculate_percentage percentage_amended
  by_cases ht : t = 0
  · rw [if_pos ht, if_pos ht]
  · rw [if_neg ht, if_neg ht, mul_comm (roundDouble ((e:ℚ) / (t:ℚ))) 100]

theorem roundDouble_eval_pos (q : ℚ) (h0 : 0 < q) (e : ℤ)
    (h1 : (2:ℚ) ^ e ≤ q) (h2 : q < 2 ^ (e + 1)) :
    roundDouble q = (rne (q / 2 ^ (e - 52)) : ℚ) * 2 ^ (e - 52) := by
  unfold roundDouble roundDoubleAux
  rw [if_neg (ne_of_gt h0), if_neg (not_lt.2 (le_of_lt h0))]
  rw [qFloorLog2_eq_of q e h0 h1 h2]

theorem roundDouble_at_inv800 :
    roundDouble (1/800 : ℚ) = 5764607523034235 / 4611686018427387904 := by
  rw [roundDouble_eval_pos (1/800 : ℚ) (by norm_num) (-10) (by norm_num) (by norm_num)]
  have harg : (1:ℚ)/800 / 2 ^ ((-10:ℤ) - 52) = 144115188075855872/25 := by
    norm_num
  have hr : rne ((1:ℚ)/800 / 2 ^ ((-10:ℤ) - 52)) = 5764607523034235 := by
    rw [harg]
    rw [rne_eq_up (144115188075855872/25 : ℚ) 5764607523034234 (by norm_num) (by norm_num)]
    norm_num
  rw [hr]
  norm_num

theorem roundDouble_at_inv800_times100 :
    roundDouble ((5764607523034235 / 4611686018427387904 : ℚ) * 100) = 1/8 := by
  have harg : (5764607523034235 / 4611686018427387904 : ℚ) * 100 =
      144115188075855875 / 1152921504606846976 := by norm_num
  rw [harg]
  rw [roundDouble_eval_pos (144115188075855875 / 1152921504606846976 : ℚ)
    (by norm_num) (-3) (by norm_num) (by norm_num)]
  have harg2 : (144115188075855875 : ℚ) / 1152921504606846976 / 2 ^ ((-3:ℤ) - 52) =
      144115188075855875 / 32 := by norm_num
  have hr : rne ((144115188075855875 : ℚ) / 1152921504606846976 / 2 ^ ((-3:ℤ) - 52)) =
      4503599627370496 := by
    rw [harg2]
    exact rne_eq_down (144115188075855875 / 32 : ℚ) 4503599627370496 (by norm_num) (by norm_num)
  rw [hr]
  norm_num

theorem quantize2_at_eighth : quantize2 (1/8 : ℚ) = 12/100 := by
  unfold quantize2
  have hr : rne ((1:ℚ)/8 * 100) = 12 := by
    rw [rne_eq_tie ((1:ℚ)/8 * 100) 12 (by norm_num)]
    norm_num
  rw [hr]
  norm_num

theorem calculate_percentage_at_1_800 :
    QuizScoringService.calculate_percentage 1 800 = 12/100 := by
  unfold QuizScoringService.calculate_percentage
  rw [if_neg (by norm_num)]
  have hc : ((1:ℤ) : ℚ) / ((800:ℤ) : ℚ) = 1/800 := by norm_num
  rw [hc, roundDouble_at_inv800, roundDouble_at_inv800_times100, quantize2_at_eighth]

theorem percentage_spec_at_1_800 : percentage_spec 1 800 = 13/100 := by
  unfold percentage_spec roundHalfUp2
  rw [if_neg (by norm_num)]
  norm_num

/-! ## Lemmas about the scoring engine -/

theorem scoreLoop_spec (d : Registry) (sub : Submission) :
    ∀ (qs : List Question) (t e : ℤ),
      qs.foldl
        (fun acc q =>
          (acc.1 + q.points,
           acc.2 + (if QuizScoringService.is_answer_correct d q (subGet sub (toString q.id))
                    then q.points else 0)))
        (t, e)
      = (t + (qs.map fun q => q.points).sum,
         e + ((qs.filter fun q =>
                QuizScoringService.is_answer_correct d q (subGet sub (toString q.id))).map
                fun q => q.points).sum) := by
  intro qs
  induction qs with
  | nil => intro t e; simp
  | cons q tl ih =>
    intro t e
    simp only [List.foldl_cons, List.map_cons, List.sum_cons, List.filter_cons]
    rw [ih]
    by_cases hc : QuizScoringService.is_answer_correct d q (subGet sub (toString q.id)) = true
    · simp only [hc, if_true, if_pos, List.map_cons, List.sum_cons, Prod.mk.injEq]
      constructor <;> ring
    · simp only [Bool.not_eq_true] at hc
      simp only [hc, Bool.false_eq_true, if_false, Prod.mk.injEq]
      constructor <;> ring

theorem calculate_score_eq (d : Registry) (quiz : Quiz) (sub : Submission) :
    QuizScoringService.calculate_score d quiz sub =
      (QuizScoringService.calculate_percentage
        (((quiz.questions.filter fun q =>
            QuizScoringService.is_answer_correct d q (subGet sub (toString q.id))).map
            fun q => q.points).sum)
        ((quiz.questions.map fun q => q.points).sum),
       (quiz.questions.map fun q => q.points).sum,
       ((quiz.questions.filter fun q =>
          QuizScoringService.is_answer_correct d q (subGet sub (toString q.id))).map
          fun q => q.points).sum) := by
  unfold QuizScoringService.calculate_score
  rw [scoreLoop_spec d sub quiz.questions 0 0]
  simp

theorem sum_filter_bounds (p : Question → Bool) :
    ∀ (qs : List Question), (∀ q ∈ qs, 0 ≤ q.points) →
      0 ≤ (((qs.filter p).map fun q => q.points).sum) ∧
      (((qs.filter p).map fun q => q.points).sum) ≤ ((qs.map fun q => q.points).sum) := by
  intro qs
  induction qs with
  | nil => intro _; simp
  | cons q tl ih =>
    intro hp
    have hq : 0 ≤ q.points := hp q (List.mem_cons_self q tl)
    have htl : ∀ r ∈ tl, 0 ≤ r.points := fun r hr => hp r (List.mem_cons_of_mem q hr)
    obtain ⟨ih1, ih2⟩ := ih htl
    simp only [List.filter_cons, List.map_cons, List.sum_cons]
    by_cases hc : p q = true
    · simp only [hc, if_true, List.map_cons, List.sum_cons]
      constructor <;> linarith
    · simp only [Bool.not_eq_true] at hc
      simp only [hc, Bool.false_eq_true, if_false]
      constructor <;> linarith

theorem subGet_eq_nil_of_no_key (sub : Submission) (k : String)
    (h : ∀ p ∈ sub, p.1 ≠ k) : subGet sub k = [] := by
  induction sub with
  | nil => rfl
  | cons p tl ih =>
    have hp : p.1 ≠ k := h p (List.mem_cons_self p tl)
    have htl : ∀ r ∈ tl, r.1 ≠ k := fun r hr => h r (List.mem_cons_of_mem p hr)
    obtain ⟨k', v⟩ := p
    have hbe : (k' == k) = false := by simpa using hp
    simp only [subGet, hbe, Bool.false_eq_true, if_false]
    exact ih htl

theorem subGet_filter_eq (P : String × List ℤ → Bool) (k : String)
    (hP : ∀ p : String × List ℤ, p.1 = k → P p = true) :
    ∀ sub : Submission, subGet (sub.filter P) k = subGet sub k := by
  intro sub
  induction sub with
  | nil => rfl
  | cons p tl ih =>
    obtain ⟨k', v⟩ := p
    by_cases hk : k' = k
    · have hP' : P (k', v) = true := hP (k', v) hk
      have hbe : (k' == k) = true := by simpa using hk
      simp [List.filter_cons, hP', subGet, hbe]
    · have hbe : (k' == k) = false := by simpa using hk
      by_cases hPp : P (k', v) = true
      · simp only [List.filter_cons, hPp, if_true, subGet, hbe, Bool.false_eq_true,
          if_false]
        exact ih
      · simp only [Bool.not_eq_true] at hPp
        simp only [List.filter_cons, hPp, Bool.false_eq_true, if_false, subGet, hbe]
        exact ih

theorem dictGet_dictSet_self (k : String) (v : Strategy) :
    ∀ d : Registry, dictGet (dictSet d k v) k = some v := by
  intro d
  induction d with
  | nil => simp [dictSet, dictGet]
  | cons p tl ih =>
    obtain ⟨k', v'⟩ := p
    by_cases hk : k' = k
    · have hbe : (k' == k) = true := by simpa using hk
      simp [dictSet, dictGet, hbe]
    · have hbe : (k' == k) = false := by simpa using hk
      simp [dictSet, dictGet, hbe, ih]

theorem dictGet_dictSet_other (k u : String) (v : Strategy) (h : u ≠ k) :
    ∀ d : Registry, dictGet (dictSet d k v) u = dictGet d u := by
  intro d
  have hku0 : (k == u) = false := by simpa using (Ne.symm h)
  induction d with
  | nil => simp [dictSet, dictGet, hku0]
  | cons p tl ih =>
    obtain ⟨k', v'⟩ := p
    by_cases hk : k' = k
    · subst hk
      have hbe : (k' == k') = true := by simp
      have hku : (k' == u) = false := by simpa using (Ne.symm h)
      simp [dictSet, dictGet, hbe, hku]
    · have hbe : (k' == k) = false := by simpa using hk
      by_cases hku : k' = u
      · have hbu : (k' == u) = true := by simpa using hku
        simp [dictSet, dictGet, hbe, hbu]
      · have hbu : (k' == u) = false := by simpa using hku
        simp [dictSet, dictGet, hbe, hbu, ih]

theorem get_strategy_ok_iff (d : Registry) (t : String) (s : Strategy) :
    ScoringStrategyFactory.get_strategy d t = Except.ok s ↔ dictGet d t = some s := by
  unfold ScoringStrategyFactory.get_strategy
  cases h : dictGet d t <;> simp

theorem get_strategy_error_of_none (d : Registry) (t : String)
    (h : dictGet d t = none) :
    ScoringStrategyFactory.get_strategy d t =
      Except.error (ScoringStrategyFactory.strategyErrorMsg d t) := by
  unfold ScoringStrategyFactory.get_strategy
  rw [h]

theorem dictGet_strategies_cases (t : String) (s : Strategy)
    (h : dictGet ScoringStrategyFactory.strategies t = some s) :
    (t = "single" ∧ s = SingleChoiceStrategy) ∨
    (t = "multi" ∧ s = MultipleChoiceStrategy) ∨
    (t = "select_words" ∧ s = SelectWordsStrategy) := by
  simp only [ScoringStrategyFactory.strategies, dictGet] at h
  split_ifs at h with h1 h2 h3
  · exact Or.inl ⟨(by simpa using h1 : "single" = t).symm, (Option.some.inj h).symm⟩
  · exact Or.inr (Or.inl ⟨(by simpa using h2 : "multi" = t).symm, (Option.some.inj h).symm⟩)
  · exact Or.inr (Or.inr ⟨(by simpa using h3 : "select_words" = t).symm,
      (Option.some.inj h).symm⟩)

theorem is_answer_correct_of_lookup (q : Question) (s : Strategy)
    (h : dictGet ScoringStrategyFactory.strategies q.question_type = some s)
    (ids : List ℤ) :
    QuizScoringService.is_answer_correct ScoringStrategyFactory.strategies q ids =
      s q ids := by
  unfold QuizScoringService.is_answer_correct ScoringStrategyFactory.get_strategy
  rw [h]

theorem is_answer_correct_unknown (q : Question)
    (h : dictGet ScoringStrategyFactory.strategies q.question_type = none)
    (ids : List ℤ) :
    QuizScoringService.is_answer_correct ScoringStrategyFactory.strategies q ids =
      false := by
  unfold QuizScoringService.is_answer_correct ScoringStrategyFactory.get_strategy
  rw [h]

theorem mem_correct_answer_ids (q : Question) (a : Answer)
    (ha : a ∈ q.answers) (hc : a.is_correct = true) :
    a.id ∈ correct_answer_ids q := by
  simp only [correct_answer_ids, List.mem_toFinset, List.mem_map, List.mem_filter]
  exact ⟨a, ⟨ha, hc⟩, rfl⟩

theorem correct_ids_nonempty (q : Question) (hc : HasCorrectAnswer q) :
    correct_answer_ids q ≠ ∅ := by
  obtain ⟨a, ha, hac⟩ := hc
  intro hemp
  have hmem := mem_correct_answer_ids q a ha hac
  rw [hemp] at hmem
  simp at hmem

theorem eval_empty_of_hasCorrect (q : Question) (hc : HasCorrectAnswer q) :
    QuizScoringService.is_answer_correct ScoringStrategyFactory.strategies q [] =
      false := by
  cases hd : dictGet ScoringStrategyFactory.strategies q.question_type with
  | none => exact is_answer_correct_unknown q hd []
  | some s =>
    rw [is_answer_correct_of_lookup q s hd []]
    have hne := correct_ids_nonempty q hc
    rcases dictGet_strategies_cases _ _ hd with ⟨_, hs⟩ | ⟨_, hs⟩ | ⟨_, hs⟩ <;> subst hs
    · simp [SingleChoiceStrategy]
    · simp only [MultipleChoiceStrategy, List.toFinset_nil, decide_eq_false_iff_not]
      exact fun hh => hne hh.symm
    · simp only [SelectWordsStrategy, List.toFinset_nil, decide_eq_false_iff_not]
      exact fun hh => hne hh.symm

theorem foldl_max_bounds (tl : List ℚ) :
    ∀ s : ℚ, s ≤ tl.foldl max s ∧ ∀ x ∈ tl, x ≤ tl.foldl max s := by
  induction tl with
  | nil => intro s; simp
  | cons y tl ih =>
    intro s
    simp only [List.foldl_cons]
    constructor
    · calc s ≤ max s y := le_max_left s y
        _ ≤ tl.foldl max (max s y) := (ih (max s y)).1
    · intro x hx
      rcases List.mem_cons.1 hx with rfl | hx'
      · calc x ≤ max s x := le_max_right s x
          _ ≤ tl.foldl max (max s x) := (ih (max s x)).1
      · exact (ih (max s y)).2 x hx'

theorem foldl_max_mem (tl : List ℚ) :
    ∀ s : ℚ, tl.foldl max s = s ∨ tl.foldl max s ∈ tl := by
  induction tl with
  | nil => intro s; exact Or.inl rfl
  | cons y tl ih =>
    intro s
    simp only [List.foldl_cons]
    rcases ih (max s y) with h | h
    · rcases max_choice s y with hm | hm
      · exact Or.inl (by rw [h, hm])
      · exact Or.inr (by rw [h, hm]; exact List.mem_cons_self y tl)
    · exact Or.inr (List.mem_cons_of_mem y h)

theorem maxScore_ge (l : List ℚ) : ∀ x ∈ l, x ≤ maxScore l := by
  cases l with
  | nil => intro x hx; simp at hx
  | cons s tl =>
    intro x hx
    rcases List.mem_cons.1 hx with rfl | hx'
    · exact (foldl_max_bounds tl x).1
    · exact (foldl_max_bounds tl s).2 x hx'

theorem maxScore_mem (l : List ℚ) (h : l ≠ []) : maxScore l ∈ l := by
  cases l with
  | nil => exact absurd rfl h
  | cons s tl =>
    rcases foldl_max_mem tl s with heq | hmem
    · rw [show maxScore (s :: tl) = tl.foldl max s from rfl, heq]
      exact List.mem_cons_self s tl
    · exact List.mem_cons_of_mem s hmem

theorem maxScore_isCent (l : List ℚ) (h : ∀ x ∈ l, IsCent x) :
    IsCent (maxScore l) := by
  by_cases hl : l = []
  · subst hl
    exact ⟨0, by norm_num [maxScore]⟩
  · exact h _ (maxScore_mem l hl)

theorem isCent_quantize2 (x : ℚ) : IsCent (quantize2 x) := ⟨rne (x * 100), rfl⟩

theorem quantize2_fix (x : ℚ) (h : IsCent x) : quantize2 x = x := by
  obtain ⟨n, rfl⟩ := h
  unfold quantize2
  have hmul : (n:ℚ)/100 * 100 = (n:ℚ) := by field_simp
  rw [hmul, rne_intCast]

theorem pairwise_take_drop (R : UserQuizAttempt → UserQuizAttempt → Prop)
    (l : List UserQuizAttempt) (h : List.Pairwise R l) (n : ℕ) :
    ∀ a ∈ l.take n, ∀ b ∈ l.drop n, R a b := by
  have hsplit : List.Pairwise R (l.take n ++ l.drop n) := by
    rw [List.take_append_drop]; exact h
  exact (List.pairwise_append.1 hsplit).2.2

/-! ## Claim theorems -/

/-- Claim C1, counterexample: at `earned_points = 1`, `total_points = 800` the
stored percentage computed by `_calculate_percentage` is `0.12`, while
`1/800 * 100 = 0.125` rounded to 2 decimal places with round-half-up exact
decimal arithmetic is `0.13`; the claim's equality fails because the code
divides in binary64 floating point and quantizes with the default
round-half-even. -/
theorem C1_counterexample :
    QuizScoringService.calculate_percentage 1 800 ≠ percentage_spec 1 800 ∧
    QuizScoringService.calculate_percentage 1 800 = 12/100 ∧
    percentage_spec 1 800 = 13/100 := by
  refine ⟨?_, calculate_percentage_at_1_800, percentage_spec_at_1_800⟩
  rw [calculate_percentage_at_1_800, percentage_spec_at_1_800]
  norm_num

/-- Claim C1 as amended: for every `earned_points` and `total_points`, the
scoring engine's stored percentage equals `earned_points / total_points`
computed in binary64 floating point, multiplied by `100` in binary64, and
rounded to 2 decimal places with round-half-even (banker's) rounding
(`0.00` when `total_points = 0`). -/
theorem C1_percentage_binary64_half_even (earned total : ℤ) :
    QuizScoringService.calculate_percentage earned total =
      percentage_amended earned total :=
  calculate_percentage_eq_amended earned total

/-- Claim C2 (confirmed): the single-choice evaluator returns correct iff
exactly one identifier is submitted, exactly one answer id is marked correct,
and the submitted set equals the correct set; the engine dispatches questions
tagged `"single"` to it; and for a question whose correct-id set is `{c}`,
submitting exactly `[c]` is correct while any other single id, zero ids, or
two distinct ids are incorrect. -/
theorem C2_single_choice_rule (q : Question) (c : ℤ) :
    (∀ ids : List ℤ, SingleChoiceStrategy q ids = true ↔
      (ids.toFinset.card = 1 ∧ (correct_answer_ids q).card = 1 ∧
        ids.toFinset = correct_answer_ids q)) ∧
    (q.question_type = "single" → ∀ ids : List ℤ,
      QuizScoringService.is_answer_correct ScoringStrategyFactory.strategies q ids =
        SingleChoiceStrategy q ids) ∧
    (correct_answer_ids q = {c} →
      SingleChoiceStrategy q [c] = true ∧
      (∀ x : ℤ, x ≠ c → SingleChoiceStrategy q [x] = false) ∧
      SingleChoiceStrategy q [] = false ∧
      (∀ x y : ℤ, x ≠ y → SingleChoiceStrategy q [x, y] = false)) := by
  refine ⟨?_, ?_, ?_⟩
  · intro ids
    simp [SingleChoiceStrategy]
  · intro ht ids
    apply is_answer_correct_of_lookup
    rw [ht]
    rfl
  · intro hcorr
    refine ⟨?_, ?_, ?_, ?_⟩
    · simp [SingleChoiceStrategy, hcorr]
    · intro x hx
      simp [SingleChoiceStrategy, hcorr, hx]
    · simp [SingleChoiceStrategy]
    · intro x y hxy
      have hxm : x ∉ ({y} : Finset ℤ) := by simp [hxy]
      have hcard : ({x, y} : Finset ℤ).card = 2 := by
        rw [Finset.card_insert_of_not_mem hxm, Finset.card_singleton]
      simp [SingleChoiceStrategy, hcard]

/-- Claim C2 witness: a concrete single-choice question with one correct
answer (id 4), instantiating the rule. -/
theorem C2_witness :
    SingleChoiceStrategy ⟨1, "single", "q", 1, 0,
      [⟨4, "a", true, "", 0⟩, ⟨5, "b", false, "", 0⟩]⟩ [4] = true ∧
    SingleChoiceStrategy ⟨1, "single", "q", 1, 0,
      [⟨4, "a", true, "", 0⟩, ⟨5, "b", false, "", 0⟩]⟩ [5] = false ∧
    SingleChoiceStrategy ⟨1, "single", "q", 1, 0,
      [⟨4, "a", true, "", 0⟩, ⟨5, "b", false, "", 0⟩]⟩ [] = false ∧
    SingleChoiceStrategy ⟨1, "single", "q", 1, 0,
      [⟨4, "a", true, "", 0⟩, ⟨5, "b", false, "", 0⟩]⟩ [4, 5] = false := by
  obtain ⟨hc, hother, hempty, htwo⟩ :=
    (C2_single_choice_rule ⟨1, "single", "q", 1, 0,
      [⟨4, "a", true, "", 0⟩, ⟨5, "b", false, "", 0⟩]⟩ 4).2.2 (by decide)
  exact ⟨hc, hother 5 (by decide), hempty, htwo 4 5 (by decide)⟩

/-- Claim C3 (confirmed): the multiple-choice evaluator is correct iff the
submitted id set equals the correct id set; the select-words evaluator agrees
with it on every input; the verdict only depends on the submitted set (order
and duplicates do not matter); any set different from the correct set is
incorrect; and the engine dispatches `"multi"` and `"select_words"` tags to
these evaluators. -/
theorem C3_set_equality_rule (q : Question) :
    (∀ ids : List ℤ, MultipleChoiceStrategy q ids = true ↔
      ids.toFinset = correct_answer_ids q) ∧
    (∀ ids : List ℤ, SelectWordsStrategy q ids = MultipleChoiceStrategy q ids) ∧
    (∀ ids1 ids2 : List ℤ, ids1.toFinset = ids2.toFinset →
      MultipleChoiceStrategy q ids1 = MultipleChoiceStrategy q ids2) ∧
    (∀ ids : List ℤ, ids.toFinset ≠ correct_answer_ids q →
      MultipleChoiceStrategy q ids = false) ∧
    (q.question_type = "multi" → ∀ ids : List ℤ,
      QuizScoringService.is_answer_correct ScoringStrategyFactory.strategies q ids =
        MultipleChoiceStrategy q ids) ∧
    (q.question_type = "select_words" → ∀ ids : List ℤ,
      QuizScoringService.is_answer_correct ScoringStrategyFactory.strategies q ids =
        SelectWordsStrategy q ids) := by
  refine ⟨?_, ?_, ?_, ?_, ?_, ?_⟩
  · intro ids
    simp [MultipleChoiceStrategy]
  · intro ids
    simp [SelectWordsStrategy, MultipleChoiceStrategy]
  · intro ids1 ids2 hset
    simp [MultipleChoiceStrategy, hset]
  · intro ids hne
    simp [MultipleChoiceStrategy, hne]
  · intro ht ids
    apply is_answer_correct_of_lookup
    rw [ht]
    rfl
  · intro ht ids
    apply is_answer_correct_of_lookup
    rw [ht]
    rfl

/-- Claim C3 witness: a concrete multi-choice question with correct ids
`{2, 4}`: the exact set in any order is correct, a proper subset is not, and
order does not change the verdict. -/
theorem C3_witness :
    MultipleChoiceStrategy ⟨2, "multi", "q", 2, 0,
      [⟨2, "a", true, "", 0⟩, ⟨3, "b", false, "", 0⟩, ⟨4, "c", true, "", 0⟩]⟩
      [4, 2] = true ∧
    MultipleChoiceStrategy ⟨2, "multi", "q", 2, 0,
      [⟨2, "a", true, "", 0⟩, ⟨3, "b", false, "", 0⟩, ⟨4, "c", true, "", 0⟩]⟩
      [2] = false ∧
    MultipleChoiceStrategy ⟨2, "multi", "q", 2, 0,
      [⟨2, "a", true, "", 0⟩, ⟨3, "b", false, "", 0⟩, ⟨4, "c", true, "", 0⟩]⟩
      [2, 4] =
    MultipleChoiceStrategy ⟨2, "multi", "q", 2, 0,
      [⟨2, "a", true, "", 0⟩, ⟨3, "b", false, "", 0⟩, ⟨4, "c", true, "", 0⟩]⟩
      [4, 2] := by
  obtain ⟨hiff, _, hperm, hne, _, _⟩ := C3_set_equality_rule ⟨2, "multi", "q", 2, 0,
    [⟨2, "a", true, "", 0⟩, ⟨3, "b", false, "", 0⟩, ⟨4, "c", true, "", 0⟩]⟩
  exact ⟨(hiff [4, 2]).2 (by decide), hne [2] (by decide),
    hperm [2, 4] [4, 2] (by decide)⟩

/-- Claim C4, counterexample: a quiz with one `"multi"` question worth 1
point that has no answer marked correct, scored against the empty
submission.  The claim says the absent question is automatically incorrect
(0 earned points); the code judges the empty submitted set equal to the
empty correct set, so `earned_points = 1`, not `0`. -/
theorem C4_counterexample :
    (QuizScoringService.calculate_score ScoringStrategyFactory.strategies
      ⟨1, "Quiz", [⟨1, "multi", "Q", 1, 0, [⟨7, "A", false, "", 0⟩]⟩]⟩ []).2.2 = 1 ∧
    ¬((QuizScoringService.calculate_score ScoringStrategyFactory.strategies
      ⟨1, "Quiz", [⟨1, "multi", "Q", 1, 0, [⟨7, "A", false, "", 0⟩]⟩]⟩ []).2.2 = 0) :=
  ⟨by decide, by decide⟩

/-- Claim C4 as amended: `total_points` is the sum of the point values of all
the quiz's questions and `earned_points` is the sum of the point values of
the questions judged correct; a question with no entry in the submission is
evaluated with the empty submitted set, which is judged incorrect (0 earned
points) whenever the question has at least one answer marked correct, while
its points still contribute to `total_points`. -/
theorem C4_sum_law (quiz : Quiz) (sub : Submission) :
    (QuizScoringService.calculate_score ScoringStrategyFactory.strategies
        quiz sub).2.1 =
      (quiz.questions.map fun q => q.points).sum ∧
    (QuizScoringService.calculate_score ScoringStrategyFactory.strategies
        quiz sub).2.2 =
      ((quiz.questions.filter fun q =>
          QuizScoringService.is_answer_correct ScoringStrategyFactory.strategies q
            (subGet sub (toString q.id))).map fun q => q.points).sum ∧
    (∀ q ∈ quiz.questions, (∀ p ∈ sub, p.1 ≠ toString q.id) →
      subGet sub (toString q.id) = [] ∧
      (HasCorrectAnswer q →
        QuizScoringService.is_answer_correct ScoringStrategyFactory.strategies q
          (subGet sub (toString q.id)) = false)) := by
  refine ⟨?_, ?_, ?_⟩
  · rw [calculate_score_eq]
  · rw [calculate_score_eq]
  · intro q _ hnokey
    have hnil := subGet_eq_nil_of_no_key sub (toString q.id) hnokey
    refine ⟨hnil, fun hc => ?_⟩
    rw [hnil]
    exact eval_empty_of_hasCorrect q hc

/-- Claim C4 witness: a quiz with one single-choice question (id 1, 2
points, one correct answer) and a submission keyed only by `"9"`: the
question's lookup is empty and it is judged incorrect. -/
theorem C4_witness :
    (QuizScoringService.calculate_score ScoringStrategyFactory.strategies
      ⟨1, "W", [⟨1, "single", "q", 2, 0, [⟨4, "a", true, "", 0⟩]⟩]⟩
      [("9", [4])]).2.1 = 2 ∧
    subGet [("9", [4])] (toString (1:ℤ)) = [] ∧
    QuizScoringService.is_answer_correct ScoringStrategyFactory.strategies
      ⟨1, "single", "q", 2, 0, [⟨4, "a", true, "", 0⟩]⟩
      (subGet [("9", [4])] (toString (1:ℤ))) = false := by
  obtain ⟨h1, _, h3⟩ := C4_sum_law
    ⟨1, "W", [⟨1, "single", "q", 2, 0, [⟨4, "a", true, "", 0⟩]⟩]⟩ [("9", [4])]
  obtain ⟨hnil, hfalse⟩ := h3 ⟨1, "single", "q", 2, 0, [⟨4, "a", true, "", 0⟩]⟩
    (by decide) (by decide)
  exact ⟨by rw [h1]; decide, hnil,
    hfalse ⟨⟨4, "a", true, "", 0⟩, by decide, rfl⟩⟩

/-- Claim C5 (confirmed): for a type tag with no registered evaluator, the
factory fails with a `ValueError` whose message names the offending tag and
lists the known tags; the engine turns that failure into an incorrect
verdict locally, so such a question earns 0 points while its points still
count in `total_points`, and every other question of the quiz is scored
normally. -/
theorem C5_unknown_type (t : String)
    (h : dictGet ScoringStrategyFactory.strategies t = none) :
    ScoringStrategyFactory.get_strategy ScoringStrategyFactory.strategies t =
      Except.error ("Unknown question type " ++ squote ++ t ++ squote ++
        ". Supported types: " ++ "single, multi, select_words") ∧
    (∀ q : Question, q.question_type = t → ∀ ids : List ℤ,
      QuizScoringService.is_answer_correct ScoringStrategyFactory.strategies q ids =
        false) ∧
    (∀ (qzid : ℤ) (title : String) (qs1 qs2 : List Question) (qbad : Question)
        (sub : Submission), qbad.question_type = t →
      (QuizScoringService.calculate_score ScoringStrategyFactory.strategies
          ⟨qzid, title, qs1 ++ qbad :: qs2⟩ sub).2.1 =
        (qs1.map fun q => q.points).sum + qbad.points +
          (qs2.map fun q => q.points).sum ∧
      (QuizScoringService.calculate_score ScoringStrategyFactory.strategies
          ⟨qzid, title, qs1 ++ qbad :: qs2⟩ sub).2.2 =
        ((qs1.filter fun q =>
            QuizScoringService.is_answer_correct ScoringStrategyFactory.strategies q
              (subGet sub (toString q.id))).map fun q => q.points).sum +
        ((qs2.filter fun q =>
            QuizScoringService.is_answer_correct ScoringStrategyFactory.strategies q
              (subGet sub (toString q.id))).map fun q => q.points).sum) := by
  refine ⟨?_, ?_, ?_⟩
  · rw [get_strategy_error_of_none _ _ h]
    rfl
  · intro q hq ids
    apply is_answer_correct_unknown
    rw [hq]
    exact h
  · intro qzid title qs1 qs2 qbad sub hbad
    have hbadeval : QuizScoringService.is_answer_correct
        ScoringStrategyFactory.strategies qbad
        (subGet sub (toString qbad.id)) = false :=
      is_answer_correct_unknown qbad (by rw [hbad]; exact h) _
    constructor
    · rw [calculate_score_eq]
      simp only [List.map_append, List.sum_append, List.map_cons, List.sum_cons]
      ring
    · rw [calculate_score_eq]
      simp only [List.filter_append, List.filter_cons, hbadeval, Bool.false_eq_true,
        if_false, List.map_append, List.sum_append]

/-- Claim C5 witness: the unregistered tag `"truefalse"`: the factory error
message and the engine's incorrect verdict at a concrete question. -/
theorem C5_witness :
    ScoringStrategyFactory.get_strategy ScoringStrategyFactory.strategies
      "truefalse" =
      Except.error ("Unknown question type " ++ squote ++ "truefalse" ++ squote ++
        ". Supported types: " ++ "single, multi, select_words") ∧
    QuizScoringService.is_answer_correct ScoringStrategyFactory.strategies
      ⟨9, "truefalse", "Q", 3, 0, []⟩ [1] = false := by
  obtain ⟨h1, h2, _⟩ := C5_unknown_type "truefalse" (by rfl)
  exact ⟨h1, h2 ⟨9, "truefalse", "Q", 3, 0, []⟩ rfl [1]⟩

/-- Claim C6 (confirmed): when the sum of the quiz's question points is 0,
the engine's score is exactly `0.00`, and `_calculate_percentage` returns 0
for every `earned` when `total = 0`; the embedding is a total function, so
no division error can occur. -/
theorem C6_zero_total_percentage (quiz : Quiz) (sub : Submission)
    (h : (quiz.questions.map fun q => q.points).sum = 0) :
    (QuizScoringService.calculate_score ScoringStrategyFactory.strategies
        quiz sub).1 = 0 ∧
    (∀ e : ℤ, QuizScoringService.calculate_percentage e 0 = 0) := by
  constructor
  · rw [calculate_score_eq]
    simp only
    rw [h]
    unfold QuizScoringService.calculate_percentage
    rw [if_pos rfl]
  · intro e
    unfold QuizScoringService.calculate_percentage
    rw [if_pos rfl]

/-- Claim C6 witness: the empty quiz scored against the empty submission. -/
theorem C6_witness :
    (QuizScoringService.calculate_score ScoringStrategyFactory.strategies
        ⟨3, "Empty", []⟩ []).1 = 0 ∧
    (∀ e : ℤ, QuizScoringService.calculate_percentage e 0 = 0) :=
  C6_zero_total_percentage ⟨3, "Empty", []⟩ [] rfl

/-- Claim C7 (confirmed): with every question worth a nonnegative number of
points (the model validators in fact force 1..100), the engine's score lies
between 0 and 100 inclusive, and `create_attempt` records exactly that score
on the resulting attempt. -/
theorem C7_score_within_bounds (quiz : Quiz) (sub : Submission)
    (hp : ∀ q ∈ quiz.questions, 0 ≤ q.points) :
    0 ≤ (QuizScoringService.calculate_score ScoringStrategyFactory.strategies
          quiz sub).1 ∧
    (QuizScoringService.calculate_score ScoringStrategyFactory.strategies
          quiz sub).1 ≤ 100 ∧
    (∀ aid uid ts : ℤ,
      (QuizAttemptService.create_attempt aid uid quiz.id
        ((QuizScoringService.calculate_score ScoringStrategyFactory.strategies
          quiz sub).1) ts).score =
      (QuizScoringService.calculate_score ScoringStrategyFactory.strategies
          quiz sub).1) := by
  obtain ⟨h0, h1⟩ := sum_filter_bounds
    (fun q => QuizScoringService.is_answer_correct ScoringStrategyFactory.strategies q
      (subGet sub (toString q.id)))
    quiz.questions hp
  rw [calculate_score_eq]
  obtain ⟨b0, b1⟩ := calculate_percentage_bounds _ _ h0 h1
  exact ⟨b0, b1, fun aid uid ts => rfl⟩

/-- Claim C7 witness: a one-question quiz worth 5 points with a correct
submission. -/
theorem C7_witness :
    0 ≤ (QuizScoringService.calculate_score ScoringStrategyFactory.strategies
          ⟨1, "W", [⟨1, "single", "q", 5, 0, [⟨4, "a", true, "", 0⟩]⟩]⟩
          [("1", [4])]).1 ∧
    (QuizScoringService.calculate_score ScoringStrategyFactory.strategies
          ⟨1, "W", [⟨1, "single", "q", 5, 0, [⟨4, "a", true, "", 0⟩]⟩]⟩
          [("1", [4])]).1 ≤ 100 ∧
    (∀ aid uid ts : ℤ,
      (QuizAttemptService.create_attempt aid uid
        (⟨1, "W", [⟨1, "single", "q", 5, 0, [⟨4, "a", true, "", 0⟩]⟩]⟩ : Quiz).id
        ((QuizScoringService.calculate_score ScoringStrategyFactory.strategies
          ⟨1, "W", [⟨1, "single", "q", 5, 0, [⟨4, "a", true, "", 0⟩]⟩]⟩
          [("1", [4])]).1) ts).score =
      (QuizScoringService.calculate_score ScoringStrategyFactory.strategies
          ⟨1, "W", [⟨1, "single", "q", 5, 0, [⟨4, "a", true, "", 0⟩]⟩]⟩
          [("1", [4])]).1) :=
  C7_score_within_bounds
    ⟨1, "W", [⟨1, "single", "q", 5, 0, [⟨4, "a", true, "", 0⟩]⟩]⟩
    [("1", [4])] (by decide)

theorem quantize2_zero : quantize2 0 = 0 := by
  unfold quantize2
  rw [show ((0:ℚ) * 100) = ((0:ℤ):ℚ) by norm_num, rne_intCast]
  norm_num

/-- Claim C8 (confirmed): `get_statistics` returns `total_quizzes` equal to
the attempt count; `average_score` is the mean of the same attempt set
rounded (half-even) to 2 decimal places and `highest_score` their maximum (a
2-decimal value whenever the stored scores are, equal to its own 2-place
rounding); with no attempts both default to 0 and `recent_attempts` is
empty; otherwise `recent_attempts` is the first five entries of the
newest-first attempt list, which dominate the remaining attempts in
completion time. -/
theorem C8_statistics_rule (attempts : List UserQuizAttempt) :
    (UserStatsService.get_statistics attempts).total_quizzes = attempts.length ∧
    (attempts = [] →
      (UserStatsService.get_statistics attempts).average_score = 0 ∧
      (UserStatsService.get_statistics attempts).highest_score = 0 ∧
      (UserStatsService.get_statistics attempts).recent_attempts = []) ∧
    (attempts ≠ [] →
      (UserStatsService.get_statistics attempts).average_score =
        quantize2 ((attempts.map fun a => a.score).sum / (attempts.length : ℚ)) ∧
      (UserStatsService.get_statistics attempts).highest_score ∈
        attempts.map fun a => a.score) ∧
    (∀ a ∈ attempts,
      a.score ≤ (UserStatsService.get_statistics attempts).highest_score) ∧
    IsCent (UserStatsService.get_statistics attempts).average_score ∧
    ((∀ a ∈ attempts, IsCent a.score) →
      IsCent (UserStatsService.get_statistics attempts).highest_score ∧
      quantize2 (UserStatsService.get_statistics attempts).highest_score =
        (UserStatsService.get_statistics attempts).highest_score) ∧
    (UserStatsService.get_statistics attempts).recent_attempts =
      attempts.take 5 ∧
    (List.Pairwise (fun a b => b.completed_at ≤ a.completed_at) attempts →
      ∀ a ∈ (UserStatsService.get_statistics attempts).recent_attempts,
        ∀ b ∈ attempts.drop 5, b.completed_at ≤ a.completed_at) := by
  refine ⟨rfl, ?_, ?_, ?_, ?_, ?_, rfl, ?_⟩
  · intro hemp
    subst hemp
    refine ⟨?_, rfl, rfl⟩
    simp only [UserStatsService.get_statistics, List.length_nil, if_pos rfl]
    exact quantize2_zero
  · intro hne
    constructor
    · have hlen : attempts.length ≠ 0 := by
        simpa [List.length_eq_zero] using hne
      simp [UserStatsService.get_statistics, hlen]
    · have hmapne : (attempts.map fun a => a.score) ≠ [] := by
        simpa using hne
      exact maxScore_mem _ hmapne
  · intro a ha
    exact maxScore_ge _ _ (List.mem_map_of_mem (fun a => a.score) ha)
  · exact isCent_quantize2 _
  · intro hcent
    have hmax : IsCent (maxScore (attempts.map fun a => a.score)) := by
      apply maxScore_isCent
      intro x hx
      obtain ⟨a, ha, rfl⟩ := List.mem_map.1 hx
      exact hcent a ha
    exact ⟨hmax, quantize2_fix _ hmax⟩
  · intro hsorted a ha b hb
    exact pairwise_take_drop _ attempts hsorted 5 a ha b hb

/-- Claim C8 witness: two attempts with 2-decimal scores, newest first. -/
theorem C8_witness :
    (UserStatsService.get_statistics
      [⟨1, 7, 3, 80/100, 100⟩, ⟨2, 7, 4, 55/100, 90⟩]).total_quizzes = 2 ∧
    (UserStatsService.get_statistics
      [⟨1, 7, 3, 80/100, 100⟩, ⟨2, 7, 4, 55/100, 90⟩]).highest_score ∈
      ([⟨1, 7, 3, 80/100, 100⟩, ⟨2, 7, 4, 55/100, 90⟩] :
        List UserQuizAttempt).map (fun a => a.score) ∧
    IsCent (UserStatsService.get_statistics
      [⟨1, 7, 3, 80/100, 100⟩, ⟨2, 7, 4, 55/100, 90⟩]).highest_score ∧
    (∀ a ∈ ([⟨1, 7, 3, 80/100, 100⟩, ⟨2, 7, 4, 55/100, 90⟩] :
        List UserQuizAttempt),
      ∀ b ∈ ([⟨1, 7, 3, 80/100, 100⟩, ⟨2, 7, 4, 55/100, 90⟩] :
        List UserQuizAttempt).drop 5, b.completed_at ≤ a.completed_at) := by
  obtain ⟨h1, _, h3, _, _, h6, h7, h8⟩ := C8_statistics_rule
    [⟨1, 7, 3, 80/100, 100⟩, ⟨2, 7, 4, 55/100, 90⟩]
  refine ⟨h1, (h3 (by simp)).2, (h6 ?_).1, ?_⟩
  · intro a ha
    rcases List.mem_cons.1 ha with rfl | ha'
    · exact ⟨80, by norm_num⟩
    · rcases List.mem_cons.1 ha' with rfl | ha''
      · exact ⟨55, by norm_num⟩
      · simp at ha''
  · intro a ha b hb
    have := h8 ?_ a ?_ b hb
    · exact this
    · refine List.Pairwise.cons ?_ ?_
      · intro b' hb'
        rcases List.mem_cons.1 hb' with rfl | hb''
        · norm_num
        · simp at hb''
      · exact List.pairwise_singleton _ _
    · rw [h7, List.take_of_length_le (by norm_num)]
      exact ha

/-- Claim C9 (confirmed): after `register_strategy(tag, evaluator)`, looking
the tag up returns exactly that evaluator (overwriting any previous entry,
last write wins), and the entry stored under every other tag is unchanged. -/
theorem C9_register_strategy (d : Registry) (t : String) (s : Strategy) :
    ScoringStrategyFactory.get_strategy
      (ScoringStrategyFactory.register_strategy d t s) t = Except.ok s ∧
    (∀ u : String, u ≠ t →
      dictGet (ScoringStrategyFactory.register_strategy d t s) u = dictGet d u) := by
  constructor
  · rw [get_strategy_ok_iff]
    exact dictGet_dictSet_self t s d
  · intro u hu
    exact dictGet_dictSet_other t u s hu d

/-- Claim C9 witness: registering a new evaluator under `"truefalse"` in the
built-in registry: the new tag resolves to it and `"single"` is unchanged. -/
theorem C9_witness :
    ScoringStrategyFactory.get_strategy
      (ScoringStrategyFactory.register_strategy ScoringStrategyFactory.strategies
        "truefalse" MultipleChoiceStrategy) "truefalse" =
      Except.ok MultipleChoiceStrategy ∧
    dictGet (ScoringStrategyFactory.register_strategy
        ScoringStrategyFactory.strategies "truefalse" MultipleChoiceStrategy)
      "single" = dictGet ScoringStrategyFactory.strategies "single" := by
  obtain ⟨h1, h2⟩ := C9_register_strategy ScoringStrategyFactory.strategies
    "truefalse" MultipleChoiceStrategy
  exact ⟨h1, h2 "single" (by decide)⟩

/-- Claim C10, counterexample: the single `"multi"` question (id 1, 1 point,
no answer marked correct) with a submission keyed `"01"` (not the decimal
string `"1"`).  The entry is ignored as the claim says, but the question is
then judged correct (empty set equals empty correct set), earning its point
rather than the claimed 0. -/
theorem C10_counterexample :
    (QuizScoringService.calculate_score ScoringStrategyFactory.strategies
      ⟨1, "Quiz", [⟨1, "multi", "Q", 1, 0, [⟨7, "A", false, "", 0⟩]⟩]⟩
      [("01", [7])]).2.2 = 1 ∧
    ¬((QuizScoringService.calculate_score ScoringStrategyFactory.strategies
      ⟨1, "Quiz", [⟨1, "multi", "Q", 1, 0, [⟨7, "A", false, "", 0⟩]⟩]⟩
      [("01", [7])]).2.2 = 0) :=
  ⟨by decide, by decide⟩

/-- Claim C10 as amended: the engine looks submissions up under the decimal
string of the question id, so entries whose keys match no question's id
string can be dropped without changing the result; a question none of whose
submission keys equal its id string is evaluated with the empty submitted
set, judged incorrect whenever it has at least one answer marked correct,
its points still counting in the denominator. -/
theorem C10_string_key_semantics (quiz : Quiz) (sub : Submission) :
    QuizScoringService.calculate_score ScoringStrategyFactory.strategies quiz
        (sub.filter fun p => quiz.questions.any fun q => toString q.id == p.1) =
      QuizScoringService.calculate_score ScoringStrategyFactory.strategies quiz
        sub ∧
    (∀ q ∈ quiz.questions, (∀ p ∈ sub, p.1 ≠ toString q.id) →
      subGet sub (toString q.id) = [] ∧
      (HasCorrectAnswer q →
        QuizScoringService.is_answer_correct ScoringStrategyFactory.strategies q
          (subGet sub (toString q.id)) = false)) := by
  constructor
  · have hsg : ∀ q ∈ quiz.questions,
        subGet (sub.filter fun p => quiz.questions.any fun q' => toString q'.id == p.1)
          (toString q.id) = subGet sub (toString q.id) := by
      intro q hq
      apply subGet_filter_eq
      intro p hp
      simp only [List.any_eq_true]
      exact ⟨q, hq, by simp [hp]⟩
    rw [calculate_score_eq, calculate_score_eq]
    have hfilter : (quiz.questions.filter fun q =>
        QuizScoringService.is_answer_correct ScoringStrategyFactory.strategies q
          (subGet (sub.filter fun p =>
            quiz.questions.any fun q' => toString q'.id == p.1) (toString q.id))) =
        (quiz.questions.filter fun q =>
        QuizScoringService.is_answer_correct ScoringStrategyFactory.strategies q
          (subGet sub (toString q.id))) := by
      apply List.filter_congr
      intro q hq
      rw [hsg q hq]
    rw [hfilter]
  · intro q _ hnokey
    have hnil := subGet_eq_nil_of_no_key sub (toString q.id) hnokey
    refine ⟨hnil, fun hc => ?_⟩
    rw [hnil]
    exact eval_empty_of_hasCorrect q hc

/-- Claim C10 witness: a one-question quiz (id 1, single-choice, correct
answer 4) and a submission whose only key is `"01"`: dropping the
non-matching entry leaves the score unchanged, the lookup is empty, and the
question is judged incorrect. -/
theorem C10_witness :
    QuizScoringService.calculate_score ScoringStrategyFactory.strategies
        ⟨1, "W", [⟨1, "single", "q", 2, 0, [⟨4, "a", true, "", 0⟩]⟩]⟩
        (([("01", [4])] : Submission).filter fun p =>
          (⟨1, "W", [⟨1, "single", "q", 2, 0, [⟨4, "a", true, "", 0⟩]⟩]⟩ :
            Quiz).questions.any fun q => toString q.id == p.1) =
      QuizScoringService.calculate_score ScoringStrategyFactory.strategies
        ⟨1, "W", [⟨1, "single", "q", 2, 0, [⟨4, "a", true, "", 0⟩]⟩]⟩
        [("01", [4])] ∧
    subGet [("01", [4])] (toString (1:ℤ)) = [] ∧
    QuizScoringService.is_answer_correct ScoringStrategyFactory.strategies
      ⟨1, "single", "q", 2, 0, [⟨4, "a", true, "", 0⟩]⟩
      (subGet [("01", [4])] (toString (1:ℤ))) = false := by
  obtain ⟨h1, h2⟩ := C10_string_key_semantics
    ⟨1, "W", [⟨1, "single", "q", 2, 0, [⟨4, "a", true, "", 0⟩]⟩]⟩ [("01", [4])]
  obtain ⟨hnil, hfalse⟩ := h2 ⟨1, "single", "q", 2, 0, [⟨4, "a", true, "", 0⟩]⟩
    (by decide) (by decide)
  exact ⟨h1, hnil, hfalse ⟨⟨4, "a", true, "", 0⟩, by decide, rfl⟩⟩
